import Mathlib

set_option linter.unusedVariables false

/-!
Verification development for the ModSimPy teaching notebooks.

The chapter notebooks (chap07, chap17, chap20, chap22) define slope functions,
event functions, force functions and growth functions; they call helpers from
the repository's modsim library (run_solve_ivp, interpolate, vector_mag,
vector_hat, pol2cart, magnitude), whose code is not among the chapter sources.
Functions defined in the chapters are embedded here directly from their source;
the library helpers are modelled from the specification and marked as such in
their doc comments.

Numeric convention: the notebooks compute with Python floats; we model the
arithmetic exactly, with ℚ for the discrete algorithms (the event-aware driver,
the interpolation helper, the population model) and ℝ where square roots and
trigonometry are involved (vectors, forces, the penny free fall).
-/

/-- Error taxonomy of the spec that is relevant to the modelled helpers:
a DivideByZero-class failure (unit direction of a zero vector) and an
OutOfDomain failure (interpolation query outside the sampled range). -/
inductive ModSimError where
  | divideByZero
  | outOfDomain
deriving DecidableEq, Repr

namespace Chap07

/-- System parameters of the quadratic growth model of chap07:
`System(alpha=..., beta=...)`. -/
structure System where
  alpha : ℚ
  beta : ℚ
deriving DecidableEq, Repr

/-- Embeds chap07's `growth_func_quad(t, pop, system)`:
`return system.alpha * pop + system.beta * pop**2`. -/
def growth_func_quad (t : ℚ) (pop : ℚ) (system : System) : ℚ :=
  system.alpha * pop + system.beta * pop ^ 2

/-- Embeds chap07's `carrying_capacity(system)`:
`K = -system.alpha / system.beta; return K`. -/
def carrying_capacity (system : System) : ℚ :=
  -system.alpha / system.beta

end Chap07

/-- Claim C5: for every system with `beta ≠ 0`, `carrying_capacity` returns
`K = -alpha/beta`, and the quadratic growth function vanishes exactly at that
population: for every `t`, `growth_func_quad t K system = 0`. -/
theorem c5_carrying_capacity_equilibrium (system : Chap07.System) (t : ℚ)
    (hbeta : system.beta ≠ 0) :
    Chap07.carrying_capacity system = -system.alpha / system.beta ∧
      Chap07.growth_func_quad t (Chap07.carrying_capacity system) system = 0 := by
  refine ⟨rfl, ?_⟩
  unfold Chap07.growth_func_quad Chap07.carrying_capacity
  field_simp
  ring

/-- Witness for C5 at the notebook's own numbers `alpha = 0.025`,
`beta = -0.0018` (as exact rationals) and `t = 0`. -/
theorem c5_carrying_capacity_equilibrium_witness :
    ((⟨1/40, -(9/5000)⟩ : Chap07.System).beta ≠ 0) ∧
      (Chap07.carrying_capacity ⟨1/40, -(9/5000)⟩ =
          -(⟨1/40, -(9/5000)⟩ : Chap07.System).alpha /
            (⟨1/40, -(9/5000)⟩ : Chap07.System).beta ∧
        Chap07.growth_func_quad 0
          (Chap07.carrying_capacity ⟨1/40, -(9/5000)⟩) ⟨1/40, -(9/5000)⟩ = 0) :=
  ⟨by show -(9/5000 : ℚ) ≠ 0; norm_num,
    c5_carrying_capacity_equilibrium ⟨1/40, -(9/5000)⟩ 0
      (by show -(9/5000 : ℚ) ≠ 0; norm_num)⟩

namespace Chap17

/-- Modelled from the spec: how the interpolation helper treats a query outside
the sampled range is selected by an explicit `allow_extrapolation` configuration
option — disallowed (fail with OutOfDomain), flat extrapolation, or linear
extrapolation. The `interpolate` function itself lives in the repository's
modsim library and is not among the chapter sources. -/
inductive ExtrapolationMode where
  | disallowed
  | flat
  | linear
deriving DecidableEq, Repr

/-- Linear interpolation of the segment through `(t0, y0)` and `(t1, y1)`,
evaluated at `t`. -/
def lerp (t0 y0 t1 y1 t : ℚ) : ℚ :=
  y0 + (t - t0) * (y1 - y0) / (t1 - t0)

/-- Scan of the sampled series: find the segment whose right endpoint is the
first sample time `≥ t` and evaluate its linear interpolant there; past the
last sample this continues the last segment (linear extrapolation), before the
first sample it continues the first segment. -/
def evalSegments (p : ℚ × ℚ) : List (ℚ × ℚ) → ℚ → ℚ
  | [], t => p.2
  | q :: qs, t =>
    if t ≤ q.1 ∨ qs = [] then lerp p.1 p.2 q.1 q.2 t
    else evalSegments q qs t

/-- Modelled from the spec: `interpolate` (modsim library, not among the
chapter sources) takes a sampled series with strictly increasing times and
returns a callable that, at a sample time, returns that sample's value exactly;
between two adjacent sample times, returns their linear interpolation; and
outside the sampled range either fails with OutOfDomain or extrapolates
(flat or linear) per the explicit `allow_extrapolation` option. We model the
returned callable, applied to a query time `t`. -/
def interpolate (series : List (ℚ × ℚ)) (mode : ExtrapolationMode) (t : ℚ) :
    Except ModSimError ℚ :=
  match series with
  | [] => .error .outOfDomain
  | p :: rest =>
    if t < p.1 ∨ (rest.getLastD p).1 < t then
      match mode with
      | .disallowed => .error .outOfDomain
      | .flat => .ok (if t < p.1 then p.2 else (rest.getLastD p).2)
      | .linear => .ok (evalSegments p rest t)
    else
      .ok (evalSegments p rest t)

/-- Evaluation of a whole series (empty series defaults to 0; the claims only
use it on nonempty series). -/
def evalSeries : List (ℚ × ℚ) → ℚ → ℚ
  | [], t => 0
  | p :: rest, t => evalSegments p rest t

/-- A well-formed series has strictly increasing (hence unique) sample times. -/
def SortedTimes (series : List (ℚ × ℚ)) : Prop :=
  series.Pairwise (fun a b => a.1 < b.1)

/-- The example series of the spec: samples (0,0), (10,10), (20,5). -/
def exampleSeries : List (ℚ × ℚ) := [(0, 0), (10, 10), (20, 5)]

theorem sortedTimes_tail {p : ℚ × ℚ} {rest : List (ℚ × ℚ)}
    (h : SortedTimes (p :: rest)) : SortedTimes rest :=
  (List.pairwise_cons.mp h).2

theorem sortedTimes_head_lt {p : ℚ × ℚ} {rest : List (ℚ × ℚ)}
    (h : SortedTimes (p :: rest)) : ∀ s ∈ rest, p.1 < s.1 :=
  (List.pairwise_cons.mp h).1

theorem sortedTimes_head_le {p : ℚ × ℚ} {rest : List (ℚ × ℚ)}
    (h : SortedTimes (p :: rest)) : ∀ s ∈ p :: rest, p.1 ≤ s.1 := by
  intro s hs
  rcases List.mem_cons.mp hs with hp | hmem
  · exact hp ▸ le_refl _
  · exact le_of_lt (sortedTimes_head_lt h s hmem)

theorem le_getLastD_of_mem {p : ℚ × ℚ} {rest : List (ℚ × ℚ)}
    (h : SortedTimes (p :: rest)) : ∀ s ∈ p :: rest, s.1 ≤ (rest.getLastD p).1 := by
  induction rest generalizing p with
  | nil =>
    intro s hs
    simp only [List.mem_singleton] at hs
    simp [hs]
  | cons q qs ih =>
    intro s hs
    have htail : SortedTimes (q :: qs) := sortedTimes_tail h
    have hlast : q.1 ≤ (qs.getLastD q).1 := ih htail q (List.mem_cons_self q qs)
    simp only [List.getLastD_cons]
    rcases List.mem_cons.mp hs with hp | hmem
    · subst hp
      exact le_trans
        (le_of_lt (sortedTimes_head_lt h q (List.mem_cons_self q qs))) hlast
    · exact ih htail s hmem

theorem evalSegments_at_sample {p : ℚ × ℚ} {rest : List (ℚ × ℚ)}
    (h : SortedTimes (p :: rest)) : ∀ s ∈ p :: rest, evalSegments p rest s.1 = s.2 := by
  induction rest generalizing p with
  | nil =>
    intro s hs
    simp only [List.mem_singleton] at hs
    simp [hs, evalSegments]
  | cons q qs ih =>
    intro s hs
    rcases List.mem_cons.mp hs with hp | hmem
    · subst hp
      have hpq : s.1 < q.1 := sortedTimes_head_lt h q (List.mem_cons_self q qs)
      simp [evalSegments, le_of_lt hpq, lerp]
    · rcases List.mem_cons.mp hmem with hq | hqs
      · subst hq
        have hpq : p.1 < s.1 := sortedTimes_head_lt h s (List.mem_cons_self s qs)
        have hne : s.1 - p.1 ≠ 0 := sub_ne_zero.mpr (ne_of_gt hpq)
        simp only [evalSegments, if_pos (Or.inl (le_refl s.1)), lerp]
        field_simp
      · have hq_lt : q.1 < s.1 := sortedTimes_head_lt (sortedTimes_tail h) s hqs
        have hqs_ne : qs ≠ [] := List.ne_nil_of_mem hqs
        simp only [evalSegments]
        rw [if_neg (not_or.mpr ⟨not_le.mpr hq_lt, hqs_ne⟩)]
        exact ih (sortedTimes_tail h) s hmem

theorem evalSeries_between (l1 : List (ℚ × ℚ)) (a b : ℚ × ℚ) (l2 : List (ℚ × ℚ))
    (t : ℚ) (h : SortedTimes (l1 ++ a :: b :: l2)) (hat : a.1 < t) (htb : t < b.1) :
    evalSeries (l1 ++ a :: b :: l2) t = lerp a.1 a.2 b.1 b.2 t := by
  induction l1 with
  | nil =>
    simp only [List.nil_append, evalSeries, evalSegments]
    rw [if_pos (Or.inl (le_of_lt htb))]
  | cons c l1 ih =>
    simp only [List.cons_append] at h ⊢
    have htail : SortedTimes (l1 ++ a :: b :: l2) := sortedTimes_tail h
    show evalSegments c (l1 ++ a :: b :: l2) t = _
    cases l1 with
    | nil =>
      simp only [List.nil_append] at htail ⊢
      simp only [evalSegments]
      rw [if_neg (not_or.mpr ⟨not_le.mpr hat, List.cons_ne_nil b l2⟩)]
      exact ih htail
    | cons d l1 =>
      simp only [List.cons_append] at htail ⊢
      have hda : d.1 < a.1 :=
        sortedTimes_head_lt htail a (by simp)
      have hne : l1 ++ a :: b :: l2 ≠ [] := by simp
      simp only [evalSegments]
      rw [if_neg (not_or.mpr ⟨not_le.mpr (lt_trans hda hat), hne⟩)]
      exact ih htail

theorem sortedTimes_adjacent_lt (l1 : List (ℚ × ℚ)) (a b : ℚ × ℚ)
    (l2 : List (ℚ × ℚ)) (h : SortedTimes (l1 ++ a :: b :: l2)) : a.1 < b.1 := by
  have h2 : SortedTimes (a :: b :: l2) := (List.pairwise_append.mp h).2.1
  exact sortedTimes_head_lt h2 b (List.mem_cons_self b l2)

theorem evalSeries_beyond (l1 : List (ℚ × ℚ)) (a b : ℚ × ℚ) (t : ℚ)
    (h : SortedTimes (l1 ++ [a, b])) (hbt : b.1 < t) :
    evalSeries (l1 ++ [a, b]) t = lerp a.1 a.2 b.1 b.2 t := by
  have hab : a.1 < b.1 := sortedTimes_adjacent_lt l1 a b [] h
  induction l1 with
  | nil =>
    simp [evalSeries, evalSegments]
  | cons c l1 ih =>
    simp only [List.cons_append] at h ⊢
    have htail : SortedTimes (l1 ++ [a, b]) := sortedTimes_tail h
    show evalSegments c (l1 ++ [a, b]) t = _
    cases l1 with
    | nil =>
      simp [evalSegments, (lt_trans hab hbt).not_le]
    | cons d l1 =>
      simp only [List.cons_append] at htail ⊢
      have hda : d.1 < a.1 := sortedTimes_head_lt htail a (by simp)
      have hne : l1 ++ [a, b] ≠ [] := by simp
      show evalSegments c (d :: (l1 ++ [a, b])) t = _
      simp only [evalSegments]
      rw [if_neg (not_or.mpr
        ⟨not_le.mpr (lt_trans hda (lt_trans hab hbt)), hne⟩)]
      exact ih htail

theorem interpolate_at_sample {series : List (ℚ × ℚ)} {mode : ExtrapolationMode}
    (h : SortedTimes series) :
    ∀ s ∈ series, interpolate series mode s.1 = .ok s.2 := by
  intro s hs
  cases series with
  | nil => cases hs
  | cons p rest =>
    have hin : ¬(s.1 < p.1 ∨ (rest.getLastD p).1 < s.1) := by
      push_neg
      exact ⟨sortedTimes_head_le h s hs, le_getLastD_of_mem h s hs⟩
    simp only [interpolate]
    rw [if_neg hin]
    exact congrArg Except.ok (evalSegments_at_sample h s hs)

theorem interpolate_between (l1 : List (ℚ × ℚ)) (a b : ℚ × ℚ) (l2 : List (ℚ × ℚ))
    (mode : ExtrapolationMode) (t : ℚ) (h : SortedTimes (l1 ++ a :: b :: l2))
    (hat : a.1 < t) (htb : t < b.1) :
    interpolate (l1 ++ a :: b :: l2) mode t = .ok (lerp a.1 a.2 b.1 b.2 t) := by
  have hmem_a : a ∈ l1 ++ a :: b :: l2 := by simp
  have hmem_b : b ∈ l1 ++ a :: b :: l2 := by simp
  cases hl : l1 ++ a :: b :: l2 with
  | nil => rw [hl] at hmem_a; cases hmem_a
  | cons p rest =>
    rw [hl] at hmem_a hmem_b h
    have hin : ¬(t < p.1 ∨ (rest.getLastD p).1 < t) := by
      push_neg
      constructor
      · exact le_trans (sortedTimes_head_le h a hmem_a) (le_of_lt hat)
      · exact le_trans (le_of_lt htb) (le_getLastD_of_mem h b hmem_b)
    simp only [interpolate]
    rw [if_neg hin]
    have := evalSeries_between l1 a b l2 t (hl ▸ h) hat htb
    rw [hl] at this
    exact congrArg Except.ok this

/-- Claim C3: for a series with strictly increasing sample times, the
interpolating callable returns the sample value exactly when queried at a
sample time, returns the linear interpolation of the two bracketing samples
when queried strictly between two adjacent sample times, and in particular on
samples (0,0), (10,10), (20,5) it returns exactly 5 at t = 5 and exactly 10
at t = 10. -/
theorem c3_interpolate_exactness (series : List (ℚ × ℚ))
    (mode : ExtrapolationMode) (h : SortedTimes series) :
    (∀ s ∈ series, interpolate series mode s.1 = .ok s.2) ∧
    (∀ l1 a b l2 t, series = l1 ++ a :: b :: l2 → a.1 < t → t < b.1 →
        interpolate series mode t = .ok (lerp a.1 a.2 b.1 b.2 t)) ∧
    interpolate exampleSeries mode 5 = .ok 5 ∧
    interpolate exampleSeries mode 10 = .ok 10 := by
  have hex : SortedTimes exampleSeries := by
    norm_num [SortedTimes, exampleSeries, List.pairwise_cons]
  refine ⟨interpolate_at_sample h, ?_, ?_, ?_⟩
  · intro l1 a b l2 t hser hat htb
    subst hser
    exact interpolate_between l1 a b l2 mode t h hat htb
  · have h5 := interpolate_between [] (0, 0) (10, 10) [(20, 5)] mode 5 hex
      (by norm_num) (by norm_num)
    simpa [exampleSeries, lerp] using h5
  · have h10 := @interpolate_at_sample exampleSeries mode hex (10, 10) (by simp [exampleSeries])
    simpa [exampleSeries] using h10

/-- Witness for C3 on the spec's example series with extrapolation disallowed. -/
theorem c3_interpolate_exactness_witness :
    SortedTimes exampleSeries ∧
      interpolate exampleSeries .disallowed 5 = .ok 5 ∧
      interpolate exampleSeries .disallowed 10 = .ok 10 := by
  have hex : SortedTimes exampleSeries := by
    norm_num [SortedTimes, exampleSeries, List.pairwise_cons]
  exact ⟨hex, (c3_interpolate_exactness exampleSeries .disallowed hex).2.2⟩

/-- Claim C4: for every query time outside the sampled range, the callable
fails with OutOfDomain exactly when the explicit `allow_extrapolation`
configuration disallows extrapolation; otherwise it returns the configured
flat or linear extrapolation (the latter continuing the last segment); in
particular for samples (0,0), (10,10), (20,5) the query t = 25 yields
OutOfDomain, or 5 (flat), or 5/2 (linear) — never a silent default 0. -/
theorem c4_interpolate_out_of_domain (p : ℚ × ℚ) (rest : List (ℚ × ℚ))
    (mode : ExtrapolationMode) (t : ℚ)
    (hout : t < p.1 ∨ (rest.getLastD p).1 < t) :
    (interpolate (p :: rest) mode t = .error .outOfDomain ↔ mode = .disallowed) ∧
    (mode = .flat → interpolate (p :: rest) mode t =
        .ok (if t < p.1 then p.2 else (rest.getLastD p).2)) ∧
    (∀ l1 a b, mode = .linear → p :: rest = l1 ++ [a, b] →
        SortedTimes (p :: rest) → b.1 < t →
        interpolate (p :: rest) mode t = .ok (lerp a.1 a.2 b.1 b.2 t)) ∧
    (interpolate exampleSeries .disallowed 25 = .error .outOfDomain ∧
      interpolate exampleSeries .flat 25 = .ok 5 ∧
      interpolate exampleSeries .linear 25 = .ok (5/2) ∧
      ∀ m, interpolate exampleSeries m 25 ≠ .ok 0) := by
  refine ⟨?_, ?_, ?_, ?_, ?_, ?_, ?_⟩
  · simp only [interpolate]
    rw [if_pos hout]
    cases mode <;> simp
  · intro hm
    subst hm
    simp only [interpolate]
    rw [if_pos hout]
  · intro l1 a b hm hser hsorted hbt
    subst hm
    simp only [interpolate]
    rw [if_pos hout]
    refine congrArg Except.ok ?_
    have heq : evalSegments p rest t = evalSeries (p :: rest) t := rfl
    rw [heq, hser]
    exact evalSeries_beyond l1 a b t (hser ▸ hsorted) hbt
  · norm_num [interpolate, exampleSeries, evalSegments, lerp]
  · norm_num [interpolate, exampleSeries, evalSegments, lerp]
  · norm_num [interpolate, exampleSeries, evalSegments, lerp]
  · intro m hc
    cases m <;> norm_num [interpolate, exampleSeries, evalSegments, lerp] at hc <;>
      exact Except.noConfusion hc

/-- Witness for C4: t = 25 is beyond the example series and with linear
extrapolation the result is 5/2, not a silent 0. -/
theorem c4_interpolate_out_of_domain_witness :
    ((25 : ℚ) < (0, (0 : ℚ)).1 ∨
        (([((10 : ℚ), (10 : ℚ)), (20, 5)]).getLastD (0, 0)).1 < 25) ∧
      interpolate exampleSeries .linear 25 = .ok (5/2) := by
  have hout : (25 : ℚ) < (0, (0 : ℚ)).1 ∨
      (([((10 : ℚ), (10 : ℚ)), (20, 5)]).getLastD (0, 0)).1 < 25 := by
    norm_num
  exact ⟨hout,
    (c4_interpolate_out_of_domain (0, 0) [(10, 10), (20, 5)] .linear 25 hout).2.2.2.2.2.1⟩

end Chap17

namespace Driver

/-- Modelled from the spec: the driver flattens a named State to a plain
numeric vector for the underlying solver; we work with the flattened vector. -/
abbrev StateVec := List ℚ

/-- Modelled from the spec: the driver's output — a time-ordered sequence of
(t, State) samples plus the detected event time, if a terminal event fired. -/
structure Trajectory where
  samples : List (ℚ × StateVec)
  eventTime : Option ℚ
deriving Repr

/-- Modelled from the spec: on crossing detection the driver refines the
crossing time by interpolation between the bracketing samples — if the new
event value is exactly zero the crossing is the new sample time, otherwise it
is the zero of the line through (t1, e1) and (t2, e2). -/
def refineCrossing (t1 t2 e1 e2 : ℚ) : ℚ :=
  if e2 = 0 then t2 else t1 + (t2 - t1) * (e1 / (e1 - e2))

/-- Linearly interpolated state between two bracketing samples. -/
def interpStateVec (s1 s2 : StateVec) (frac : ℚ) : StateVec :=
  List.zipWith (fun a b => a + frac * (b - a)) s1 s2

/-- Modelled from the spec: the stepping loop of `run_solve_ivp` (repository
modsim library, not among the chapter sources). Integration of one accepted
step is delegated to the external solver `step`; after every accepted step the
event function is evaluated at the new point and compared with its value at
the previous accepted step: on a sign change (or an exact zero at the new
point), the crossing is refined, the trajectory is truncated to end exactly at
the refined time, and integration stops. An event value of zero at the
baseline sample alone does not count as a crossing. The accumulator holds the
accepted samples in reverse order, the current sample first. -/
def integrateLoop (step : ℚ → ℚ → StateVec → StateVec)
    (event : ℚ → StateVec → ℚ) (t_end dt : ℚ) :
    Nat → ℚ → StateVec → List (ℚ × StateVec) → Trajectory
  | 0, t, s, acc => ⟨acc.reverse, none⟩
  | fuel + 1, t, s, acc =>
    if t_end ≤ t then ⟨acc.reverse, none⟩
    else
      let t2 := min (t + dt) t_end
      let s2 := step t (t2 - t) s
      let e1 := event t s
      let e2 := event t2 s2
      if e1 * e2 < 0 ∨ (e2 = 0 ∧ e1 ≠ 0) then
        let tstar := refineCrossing t t2 e1 e2
        let sstar := interpStateVec s s2 ((tstar - t) / (t2 - t))
        ⟨((tstar, sstar) :: acc).reverse, some tstar⟩
      else
        integrateLoop step event t_end dt fuel t2 s2 ((t2, s2) :: acc)

/-- Modelled from the spec: `run_solve_ivp` integrates from t_0 to t_end with
step-size hint dt, stopping early at the first detected zero crossing of the
event function; the initial sample is the baseline. -/
def run_solve_ivp (step : ℚ → ℚ → StateVec → StateVec)
    (event : ℚ → StateVec → ℚ) (t_0 t_end dt : ℚ) (init : StateVec)
    (fuel : Nat) : Trajectory :=
  integrateLoop step event t_end dt fuel t_0 init [(t_0, init)]

theorem refineCrossing_mem {t1 t2 e1 e2 : ℚ} (h12 : t1 < t2)
    (hcross : e1 * e2 < 0 ∨ (e2 = 0 ∧ e1 ≠ 0)) :
    t1 < refineCrossing t1 t2 e1 e2 ∧ refineCrossing t1 t2 e1 e2 ≤ t2 := by
  unfold refineCrossing
  by_cases h2 : e2 = 0
  · rw [if_pos h2]
    exact ⟨h12, le_refl t2⟩
  · rw [if_neg h2]
    have hmul : e1 * e2 < 0 := by
      rcases hcross with h | h
      · exact h
      · exact absurd h.1 h2
    have hratio : 0 < e1 / (e1 - e2) ∧ e1 / (e1 - e2) < 1 := by
      rcases mul_neg_iff.mp hmul with ⟨h1pos, h2neg⟩ | ⟨h1neg, h2pos⟩
      · have hd : 0 < e1 - e2 := by linarith
        constructor
        · exact div_pos h1pos hd
        · rw [div_lt_one hd]
          linarith
      · have hd : e1 - e2 < 0 := by linarith
        constructor
        · exact div_pos_of_neg_of_neg h1neg hd
        · rw [div_lt_one_iff]
          exact Or.inr (Or.inr ⟨by linarith, by linarith⟩)
    constructor
    · have : 0 < (t2 - t1) * (e1 / (e1 - e2)) :=
        mul_pos (by linarith) hratio.1
      linarith
    · have : (t2 - t1) * (e1 / (e1 - e2)) ≤ (t2 - t1) * 1 := by
        apply mul_le_mul_of_nonneg_left (le_of_lt hratio.2) (by linarith)
      nlinarith [this]

theorem integrateLoop_spec (step : ℚ → ℚ → StateVec → StateVec)
    (event : ℚ → StateVec → ℚ) (t_end dt : ℚ) (hdt : 0 < dt) :
    ∀ (fuel : Nat) (t : ℚ) (s : StateVec) (rest : List (ℚ × StateVec)),
      List.Chain' (fun u v => v.1 < u.1) ((t, s) :: rest) →
      t ≤ t_end → t_end - t ≤ fuel * dt →
      ∃ last,
        List.Chain' (fun u v => u.1 < v.1)
          (integrateLoop step event t_end dt fuel t s ((t, s) :: rest)).samples ∧
        (integrateLoop step event t_end dt fuel t s ((t, s) :: rest)).samples.getLast?
          = some last ∧
        ((integrateLoop step event t_end dt fuel t s ((t, s) :: rest)).eventTime = none →
          last.1 = t_end) ∧
        (∀ te,
          (integrateLoop step event t_end dt fuel t s ((t, s) :: rest)).eventTime = some te →
          last.1 = te) := by
  intro fuel
  induction fuel with
  | zero =>
    intro t s rest hchain hle hfuel
    have ht : t = t_end := by
      push_cast at hfuel
      exact le_antisymm hle (by linarith)
    refine ⟨(t, s), ?_, ?_, ?_, ?_⟩
    · show List.Chain' _ ((t, s) :: rest).reverse
      rw [List.chain'_reverse]
      exact hchain
    · show ((t, s) :: rest).reverse.getLast? = _
      rw [List.getLast?_reverse]
      rfl
    · intro _
      exact ht
    · intro te hte
      exact absurd hte (by simp [integrateLoop])
  | succ fuel ih =>
    intro t s rest hchain hle hfuel
    by_cases hstop : t_end ≤ t
    · have ht : t = t_end := le_antisymm hle hstop
      simp only [integrateLoop, if_pos hstop]
      refine ⟨(t, s), ?_, ?_, fun _ => ht, fun te hte => absurd hte (by simp)⟩
      · rw [List.chain'_reverse]
        exact hchain
      · rw [List.getLast?_reverse]
        rfl
    · push_neg at hstop
      have ht2_gt : t < min (t + dt) t_end := lt_min (by linarith) hstop
      have ht2_le : min (t + dt) t_end ≤ t_end := min_le_right _ _
      simp only [integrateLoop, if_neg (not_le.mpr hstop)]
      set t2 := min (t + dt) t_end with ht2_def
      set s2 := step t (t2 - t) s with hs2_def
      set e1 := event t s with he1_def
      set e2 := event t2 s2 with he2_def
      by_cases hcross : e1 * e2 < 0 ∨ (e2 = 0 ∧ e1 ≠ 0)
      · rw [if_pos hcross]
        obtain ⟨hlo, hhi⟩ := refineCrossing_mem ht2_gt hcross
        refine ⟨(refineCrossing t t2 e1 e2,
            interpStateVec s s2 ((refineCrossing t t2 e1 e2 - t) / (t2 - t))), ?_, ?_, ?_, ?_⟩
        · rw [List.chain'_reverse]
          exact List.Chain'.cons hlo hchain
        · rw [List.getLast?_reverse]
          rfl
        · intro hnone
          exact absurd hnone (by simp)
        · intro te hte
          simp only [Option.some.injEq] at hte
          exact hte
      · rw [if_neg hcross]
        have hchain2 : List.Chain' (fun u v => v.1 < u.1) ((t2, s2) :: (t, s) :: rest) :=
          List.Chain'.cons ht2_gt hchain
        have hfuel2 : t_end - t2 ≤ fuel * dt := by
          push_cast at hfuel ⊢
          rcases min_le_iff.mp (le_refl t2) with h | h
          · have : t + dt ≤ t2 ∨ t2 = t_end := by
              rcases le_total (t + dt) t_end with hc | hc
              · left
                rw [ht2_def, min_eq_left hc]
              · right
                rw [ht2_def, min_eq_right hc]
            rcases this with h2 | h2
            · linarith
            · rw [h2]
              have : (0 : ℚ) ≤ fuel * dt := by positivity
              linarith
          · have : t + dt ≤ t2 ∨ t2 = t_end := by
              rcases le_total (t + dt) t_end with hc | hc
              · left
                rw [ht2_def, min_eq_left hc]
              · right
                rw [ht2_def, min_eq_right hc]
            rcases this with h2 | h2
            · linarith
            · rw [h2]
              have : (0 : ℚ) ≤ fuel * dt := by positivity
              linarith
        exact ih t2 s2 ((t, s) :: rest) hchain2 ht2_le hfuel2

/-- Claim C2: for every run of the driver, the returned trajectory's time
index is strictly increasing, and the last sample's time equals the detected
event time when a terminal event fired, else equals the requested end time
t_end. -/
theorem c2_trajectory_times (step : ℚ → ℚ → StateVec → StateVec)
    (event : ℚ → StateVec → ℚ) (t_0 t_end dt : ℚ) (init : StateVec) (fuel : Nat)
    (hdt : 0 < dt) (hle : t_0 ≤ t_end) (hfuel : t_end - t_0 ≤ fuel * dt) :
    ∃ last,
      List.Chain' (fun u v => u.1 < v.1)
        (run_solve_ivp step event t_0 t_end dt init fuel).samples ∧
      (run_solve_ivp step event t_0 t_end dt init fuel).samples.getLast? = some last ∧
      ((run_solve_ivp step event t_0 t_end dt init fuel).eventTime = none →
        last.1 = t_end) ∧
      (∀ te, (run_solve_ivp step event t_0 t_end dt init fuel).eventTime = some te →
        last.1 = te) :=
  integrateLoop_spec step event t_end dt hdt fuel t_0 init []
    (List.chain'_singleton _) hle hfuel

/-- Witness for C2: a concrete two-step run (constant state, event never
firing) from t_0 = 0 to t_end = 1 with dt = 1/2. -/
theorem c2_trajectory_times_witness :
    ((0 : ℚ) < 1/2 ∧ (0 : ℚ) ≤ 1 ∧ (1 : ℚ) - 0 ≤ (2 : Nat) * (1/2 : ℚ)) ∧
      ∃ last,
        List.Chain' (fun u v => u.1 < v.1)
          (run_solve_ivp (fun t dt s => s) (fun t s => 1) 0 1 (1/2) [0] 2).samples ∧
        (run_solve_ivp (fun t dt s => s) (fun t s => 1) 0 1 (1/2) [0] 2).samples.getLast?
          = some last ∧
        ((run_solve_ivp (fun t dt s => s) (fun t s => 1) 0 1 (1/2) [0] 2).eventTime = none →
          last.1 = 1) ∧
        (∀ te,
          (run_solve_ivp (fun t dt s => s) (fun t s => 1) 0 1 (1/2) [0] 2).eventTime = some te →
          last.1 = te) :=
  ⟨⟨by norm_num, by norm_num, by push_cast; norm_num⟩,
    c2_trajectory_times (fun t dt s => s) (fun t s => 1) 0 1 (1/2) [0] 2
      (by norm_num) (by norm_num) (by push_cast; norm_num)⟩

end Driver

/-- A 2-D vector, as the modsim library's Vector of chap22 (a pair of
Cartesian components). -/
@[ext]
structure Vec where
  x : ℝ
  y : ℝ

namespace Vec

noncomputable instance : Neg Vec := ⟨fun v => ⟨-v.x, -v.y⟩⟩

noncomputable instance : Add Vec := ⟨fun u v => ⟨u.x + v.x, u.y + v.y⟩⟩

noncomputable instance : HMul ℝ Vec Vec := ⟨fun c v => ⟨c * v.x, c * v.y⟩⟩

noncomputable instance : HMul Vec ℝ Vec := ⟨fun v c => ⟨v.x * c, v.y * c⟩⟩

noncomputable instance : HDiv Vec ℝ Vec := ⟨fun v c => ⟨v.x / c, v.y / c⟩⟩

theorem neg_x (v : Vec) : (-v).x = -v.x := rfl

theorem neg_y (v : Vec) : (-v).y = -v.y := rfl

theorem add_x (u v : Vec) : (u + v).x = u.x + v.x := rfl

theorem add_y (u v : Vec) : (u + v).y = u.y + v.y := rfl

theorem smul_x (c : ℝ) (v : Vec) : (c * v).x = c * v.x := rfl

theorem smul_y (c : ℝ) (v : Vec) : (c * v).y = c * v.y := rfl

theorem mulc_x (v : Vec) (c : ℝ) : (v * c).x = v.x * c := rfl

theorem mulc_y (v : Vec) (c : ℝ) : (v * c).y = v.y * c := rfl

theorem div_x (v : Vec) (c : ℝ) : (v / c).x = v.x / c := rfl

theorem div_y (v : Vec) (c : ℝ) : (v / c).y = v.y / c := rfl

end Vec

/-- Modelled from the spec: `vector_mag` (modsim library, not among the
chapter sources) returns the magnitude of a vector, its Euclidean norm. -/
noncomputable def vector_mag (v : Vec) : ℝ :=
  Real.sqrt (v.x ^ 2 + v.y ^ 2)

/-- Modelled from the spec: the scalar `magnitude` used by the chap07 case
study (modsim library, not among the chapter sources) is the Euclidean norm,
which on a scalar is the absolute value. -/
noncomputable def magnitude (a : ℝ) : ℝ := |a|

/-- Modelled from the spec: `vector_angle` (modsim library, not among the
chapter sources) returns the direction of a vector as atan2(v.y, v.x), which
is the argument of the complex number v.x + v.y i. -/
noncomputable def vector_angle (v : Vec) : ℝ :=
  Complex.arg ⟨v.x, v.y⟩

/-- Modelled from the spec: `pol2cart theta r` (modsim library, not among the
chapter sources) converts polar to Cartesian coordinates,
(r cos theta, r sin theta). -/
noncomputable def pol2cart (theta r : ℝ) : ℝ × ℝ :=
  (r * Real.cos theta, r * Real.sin theta)

/-- Modelled from the spec: `vector_hat` (unit direction; modsim library, not
among the chapter sources) returns v / magnitude(v), and fails with a
DivideByZero-class error when the magnitude is zero. -/
noncomputable def vector_hat (v : Vec) : Except ModSimError Vec :=
  if vector_mag v = 0 then .error .divideByZero else .ok (v / vector_mag v)

theorem vector_mag_nonneg (v : Vec) : 0 ≤ vector_mag v :=
  Real.sqrt_nonneg _

theorem vector_mag_eq_of_sq {v : Vec} {c : ℝ} (hc : 0 ≤ c)
    (h : v.x ^ 2 + v.y ^ 2 = c ^ 2) : vector_mag v = c := by
  unfold vector_mag
  rw [h, Real.sqrt_sq hc]

theorem vector_mag_eq_zero_iff (v : Vec) : vector_mag v = 0 ↔ v.x = 0 ∧ v.y = 0 := by
  unfold vector_mag
  rw [Real.sqrt_eq_zero (by positivity)]
  constructor
  · intro h
    constructor <;> nlinarith [sq_nonneg v.x, sq_nonneg v.y]
  · intro ⟨hx, hy⟩
    rw [hx, hy]
    norm_num

namespace Chap20

/-- The penny's state in chap20: height `y` above the sidewalk and velocity
`v`, as in `init = State(y=381, v=0)`. -/
structure State where
  y : ℝ
  v : ℝ

/-- The chap20 system: its only parameter used by the slope and event
functions is the acceleration of gravity `g = 9.8`. -/
structure System where
  g : ℝ

/-- Embeds chap20's `init = State(y=381, v=0)`. -/
def init : State := ⟨381, 0⟩

/-- Embeds chap20's `slope_func(t, state, system)`:
`y, v = state; dydt = v; dvdt = -system.g; return dydt, dvdt`. -/
def slope_func (t : ℝ) (state : State) (system : System) : ℝ × ℝ :=
  (state.v, -system.g)

/-- Embeds chap20's `event_func(t, state, system)`: `y, v = state; return y`. -/
def event_func (t : ℝ) (state : State) (system : System) : ℝ :=
  state.y

/-- Modelled from the spec: `sol` is the exact solution that the external
adaptive solver wrapped by `run_solve_ivp` (modsim library, not among the
chapter sources) approximates — it starts at the initial state and satisfies
the ODE given by the slope function at every time. -/
def IsExactSolution (system : System) (start : State) (sol : ℝ → State) : Prop :=
  sol 0 = start ∧
    ∀ t : ℝ,
      HasDerivAt (fun u => (sol u).y) (slope_func t (sol t) system).1 t ∧
      HasDerivAt (fun u => (sol u).v) (slope_func t (sol t) system).2 t

/-- Modelled from the spec: with a terminal event, the idealized driver
reports the event at time `te` exactly when `te` is the first time at or
after `t_0` at which the event function vanishes along the exact solution
(the crossing time is refined to tolerance and the trajectory is truncated to
end exactly there). -/
def reportsEventAt (system : System) (sol : ℝ → State) (t_0 te : ℝ) : Prop :=
  t_0 ≤ te ∧ event_func te (sol te) system = 0 ∧
    ∀ s, t_0 ≤ s → s < te → event_func s (sol s) system ≠ 0

/-- The closed-form free-fall solution for the penny:
y(t) = 381 - 4.9 t², v(t) = -9.8 t. -/
def penny_sol (t : ℝ) : State :=
  ⟨381 - 4.9 * t ^ 2, -(9.8) * t⟩

end Chap20

/-- Claim C1: for the penny model — init y=381, v=0, slope function returning
(v, -g) with g = 9.8, event function returning y — the exact free-fall
solution solves the ODE, the driver reports the zero crossing at
t⋆ = sqrt(2·381/9.8), this time is within 0.001 of 8.818 seconds, and the
trajectory's y value at that time is exactly 0. -/
theorem c1_penny_event_detection :
    Chap20.IsExactSolution ⟨9.8⟩ Chap20.init Chap20.penny_sol ∧
      Chap20.reportsEventAt ⟨9.8⟩ Chap20.penny_sol 0 (Real.sqrt (2 * 381 / 9.8)) ∧
      |Real.sqrt (2 * 381 / 9.8) - 8.818| < 0.001 ∧
      (Chap20.penny_sol (Real.sqrt (2 * 381 / 9.8))).y = 0 := by
  have hsq : Real.sqrt (2 * 381 / 9.8) ^ 2 = 2 * 381 / 9.8 :=
    Real.sq_sqrt (by norm_num)
  have hy_star : (Chap20.penny_sol (Real.sqrt (2 * 381 / 9.8))).y = 0 := by
    show 381 - 4.9 * Real.sqrt (2 * 381 / 9.8) ^ 2 = 0
    rw [hsq]
    norm_num
  have hlow : (8.8175 : ℝ) < Real.sqrt (2 * 381 / 9.8) := by
    rw [show (8.8175 : ℝ) = Real.sqrt (8.8175 ^ 2) from
      (Real.sqrt_sq (by norm_num)).symm]
    exact Real.sqrt_lt_sqrt (by norm_num) (by norm_num)
  have hhigh : Real.sqrt (2 * 381 / 9.8) < 8.8185 := by
    rw [show (8.8185 : ℝ) = Real.sqrt (8.8185 ^ 2) from
      (Real.sqrt_sq (by norm_num)).symm]
    exact Real.sqrt_lt_sqrt (by norm_num) (by norm_num)
  refine ⟨⟨?_, ?_⟩, ⟨Real.sqrt_nonneg _, hy_star, ?_⟩, ?_, hy_star⟩
  · show Chap20.State.mk (381 - 4.9 * 0 ^ 2) (-(9.8) * 0) = Chap20.State.mk 381 0
    norm_num
  · intro t
    constructor
    · show HasDerivAt (fun u => (Chap20.penny_sol u).y) ((Chap20.penny_sol t).v) t
      have h2 : HasDerivAt (fun u : ℝ => u ^ 2) (2 * t) t := by
        simpa using hasDerivAt_pow 2 t
      have h3 := (h2.const_mul (4.9 : ℝ)).const_sub (381 : ℝ)
      have h4 : HasDerivAt (fun u : ℝ => 381 - 4.9 * u ^ 2) (-(9.8) * t) t := by
        convert h3 using 1
        ring
      exact h4
    · show HasDerivAt (fun u => (Chap20.penny_sol u).v) (-(9.8)) t
      have h5 : HasDerivAt (fun u : ℝ => -(9.8) * u) (-(9.8)) t := by
        simpa using (hasDerivAt_id t).const_mul (-(9.8) : ℝ)
      exact h5
  · intro s hs0 hste
    show 381 - 4.9 * s ^ 2 ≠ 0
    have hs2 : s ^ 2 < 2 * 381 / 9.8 := by
      calc s ^ 2 < Real.sqrt (2 * 381 / 9.8) ^ 2 := by
            exact pow_lt_pow_left₀ hste hs0 (by norm_num)
        _ = 2 * 381 / 9.8 := hsq
    nlinarith
  · rw [abs_sub_lt_iff]
    constructor <;> nlinarith [hlow, hhigh]

/-- Claim C6: the unit-direction operation returns v / magnitude(v) when the
magnitude is nonzero, and fails with the DivideByZero-class error when the
magnitude is zero. -/
theorem c6_vector_hat_division (v : Vec) :
    (vector_mag v ≠ 0 → vector_hat v = .ok (v / vector_mag v)) ∧
    (vector_mag v = 0 → vector_hat v = .error .divideByZero) := by
  constructor
  · intro h
    unfold vector_hat
    rw [if_neg h]
  · intro h
    unfold vector_hat
    rw [if_pos h]

/-- Witness for C6 at v = (3, 4) (magnitude 5) and at the zero vector. -/
theorem c6_vector_hat_division_witness :
    (vector_mag ⟨3, 4⟩ ≠ 0 ∧
        vector_hat ⟨3, 4⟩ = .ok (Vec.mk 3 4 / vector_mag ⟨3, 4⟩)) ∧
      (vector_mag ⟨0, 0⟩ = 0 ∧ vector_hat ⟨0, 0⟩ = .error .divideByZero) := by
  have h34 : vector_mag ⟨3, 4⟩ = 5 := vector_mag_eq_of_sq (by norm_num) (by norm_num)
  have h00 : vector_mag ⟨0, 0⟩ = 0 := (vector_mag_eq_zero_iff ⟨0, 0⟩).mpr ⟨rfl, rfl⟩
  have hne : vector_mag (⟨3, 4⟩ : Vec) ≠ 0 := by
    rw [h34]
    norm_num
  exact ⟨⟨hne, (c6_vector_hat_division ⟨3, 4⟩).1 hne⟩,
    ⟨h00, (c6_vector_hat_division ⟨0, 0⟩).2 h00⟩⟩

/-- The round-trip property claimed by C7: building a vector from polar
coordinates with pol2cart and then taking vector_mag and vector_angle
recovers the radius exactly and the angle up to a multiple of 2π. -/
def polarRoundTrip (theta r : ℝ) : Prop :=
  vector_mag ⟨(pol2cart theta r).1, (pol2cart theta r).2⟩ = r ∧
    ∃ k : ℤ, vector_angle ⟨(pol2cart theta r).1, (pol2cart theta r).2⟩ =
      theta + 2 * Real.pi * k

/-- Counterexample to C7 as stated: at r = 0 (allowed by the claim's r ≥ 0)
and theta = π, the angle is not recovered — the zero vector has angle 0,
which is not π modulo 2π. -/
theorem c7_polar_round_trip_counterexample :
    (0 : ℝ) ≤ 0 ∧ ¬ polarRoundTrip Real.pi 0 := by
  refine ⟨le_refl 0, ?_⟩
  rintro ⟨hmag, k, hang⟩
  have hzero : (⟨(pol2cart Real.pi 0).1, (pol2cart Real.pi 0).2⟩ : Vec) = ⟨0, 0⟩ := by
    simp [pol2cart]
  rw [hzero] at hang
  have harg : vector_angle (⟨0, 0⟩ : Vec) = 0 := by
    unfold vector_angle
    rw [show (⟨0, 0⟩ : ℂ) = 0 from Complex.ext rfl rfl]
    exact Complex.arg_zero
  rw [harg] at hang
  have hodd : ((1 + 2 * k : ℤ) : ℝ) * Real.pi = 0 := by
    push_cast
    linarith
  have hz : ((1 + 2 * k : ℤ) : ℝ) = 0 :=
    (mul_eq_zero.mp hodd).resolve_right Real.pi_ne_zero
  have : (1 + 2 * k : ℤ) = 0 := by exact_mod_cast hz
  omega

/-- Claim C7 (amended): for every r > 0 and every angle theta, pol2cart
followed by vector_mag and vector_angle recovers r exactly and theta up to a
multiple of 2π. -/
theorem c7_polar_round_trip (r theta : ℝ) (hr : 0 < r) : polarRoundTrip theta r := by
  constructor
  · apply vector_mag_eq_of_sq (le_of_lt hr)
    show (pol2cart theta r).1 ^ 2 + (pol2cart theta r).2 ^ 2 = r ^ 2
    unfold pol2cart
    calc (r * Real.cos theta) ^ 2 + (r * Real.sin theta) ^ 2
        = r ^ 2 * (Real.sin theta ^ 2 + Real.cos theta ^ 2) := by ring
      _ = r ^ 2 := by rw [Real.sin_sq_add_cos_sq, mul_one]
  · refine ⟨-(toIocDiv (mul_pos two_pos Real.pi_pos) (-Real.pi) theta), ?_⟩
    have hz : (⟨(pol2cart theta r).1, (pol2cart theta r).2⟩ : ℂ)
        = (r : ℂ) * Complex.exp (theta * Complex.I) := by
      rw [Complex.exp_mul_I, Complex.mk_eq_add_mul_I]
      unfold pol2cart
      push_cast
      ring
    have hang : vector_angle ⟨(pol2cart theta r).1, (pol2cart theta r).2⟩
        = toIocMod (mul_pos two_pos Real.pi_pos) (-Real.pi) theta := by
      unfold vector_angle
      rw [hz, Complex.arg_real_mul _ hr, Complex.arg_exp_mul_I]
    rw [hang]
    have hsub := toIocMod_sub_self (mul_pos two_pos Real.pi_pos) (-Real.pi) theta
    rw [zsmul_eq_mul] at hsub
    push_cast at hsub ⊢
    linarith

/-- Witness for the amended C7 at r = 1, theta = 0. -/
theorem c7_polar_round_trip_witness : (0 : ℝ) < 1 ∧ polarRoundTrip 0 1 :=
  ⟨one_pos, c7_polar_round_trip 1 0 one_pos⟩

namespace Chap22

/-- The baseball's state in chap22: position (x, y) and velocity (vx, vy). -/
structure State where
  x : ℝ
  y : ℝ
  vx : ℝ
  vy : ℝ

/-- The chap22 baseball system parameters used by drag_force and slope_func. -/
structure System where
  rho : ℝ
  C_d : ℝ
  area : ℝ
  mass : ℝ
  g : ℝ

/-- Embeds chap22's `drag_force(V, system)`:
`rho, C_d, area = system.rho, system.C_d, system.area;
mag = rho * vector_mag(V)**2 * C_d * area / 2;
direction = -vector_hat(V); f_drag = mag * direction; return f_drag`. -/
noncomputable def drag_force (V : Vec) (system : System) :
    Except ModSimError Vec := do
  let mag := system.rho * vector_mag V ^ 2 * system.C_d * system.area / 2
  let direction := -(← vector_hat V)
  let f_drag := mag * direction
  return f_drag

/-- Embeds chap22's `slope_func(t, state, system)`:
`x, y, vx, vy = state; mass, g = system.mass, system.g; V = Vector(vx, vy);
a_drag = drag_force(V, system) / mass; a_grav = g * Vector(0, -1);
A = a_grav + a_drag; return V.x, V.y, A.x, A.y`. -/
noncomputable def slope_func (t : ℝ) (state : State) (system : System) :
    Except ModSimError (ℝ × ℝ × ℝ × ℝ) := do
  let V : Vec := ⟨state.vx, state.vy⟩
  let a_drag := (← drag_force V system) / system.mass
  let a_grav := system.g * Vec.mk 0 (-1)
  let A := a_grav + a_drag
  return (V.x, V.y, A.x, A.y)

/-- Embeds chap22's `event_func(t, state, system)`:
`x, y, vx, vy = state; return y`. -/
def event_func (t : ℝ) (state : State) (system : System) : ℝ :=
  state.y

end Chap22

/-- Claim C9: for every velocity vector with nonzero magnitude, drag_force
returns -(rho · C_d · area / 2) · magnitude(V)² · vector_hat(V); under
nonnegative rho, C_d and area its magnitude is rho · magnitude(V)² · C_d ·
area / 2, and its direction is exactly opposite to V. -/
theorem c9_drag_force_formula (V : Vec) (system : Chap22.System)
    (hV : vector_mag V ≠ 0) :
    Chap22.drag_force V system =
      .ok ((-(system.rho * system.C_d * system.area / 2 * vector_mag V ^ 2)) *
        (V / vector_mag V)) ∧
    (0 ≤ system.rho → 0 ≤ system.C_d → 0 ≤ system.area →
      ∀ f, Chap22.drag_force V system = .ok f →
        vector_mag f = system.rho * vector_mag V ^ 2 * system.C_d * system.area / 2) := by
  have hhat : vector_hat V = .ok (V / vector_mag V) := by
    unfold vector_hat
    rw [if_neg hV]
  have hmain : Chap22.drag_force V system =
      .ok ((-(system.rho * system.C_d * system.area / 2 * vector_mag V ^ 2)) *
        (V / vector_mag V)) := by
    unfold Chap22.drag_force
    rw [hhat]
    show Except.ok _ = Except.ok _
    refine congrArg Except.ok ?_
    ext
    · show system.rho * vector_mag V ^ 2 * system.C_d * system.area / 2 *
          -(V.x / vector_mag V) =
        -(system.rho * system.C_d * system.area / 2 * vector_mag V ^ 2) *
          (V.x / vector_mag V)
      ring
    · show system.rho * vector_mag V ^ 2 * system.C_d * system.area / 2 *
          -(V.y / vector_mag V) =
        -(system.rho * system.C_d * system.area / 2 * vector_mag V ^ 2) *
          (V.y / vector_mag V)
      ring
  refine ⟨hmain, ?_⟩
  intro hrho hcd harea f hf
  rw [hmain] at hf
  have hfval : f = (-(system.rho * system.C_d * system.area / 2 * vector_mag V ^ 2)) *
      (V / vector_mag V) := by
    cases hf
    rfl
  subst hfval
  have hmpos : 0 < vector_mag V := lt_of_le_of_ne (vector_mag_nonneg V) (Ne.symm hV)
  set c := -(system.rho * system.C_d * system.area / 2 * vector_mag V ^ 2) with hc
  have hcomp : (c * (V / vector_mag V)).x ^ 2 + (c * (V / vector_mag V)).y ^ 2 =
      (c / vector_mag V) ^ 2 * (V.x ^ 2 + V.y ^ 2) := by
    show (c * (V.x / vector_mag V)) ^ 2 + (c * (V.y / vector_mag V)) ^ 2 = _
    ring
  have hsq : Real.sqrt (V.x ^ 2 + V.y ^ 2) = vector_mag V := rfl
  have hnn : 0 ≤ system.rho * system.C_d * system.area / 2 * vector_mag V ^ 2 := by
    positivity
  rw [show vector_mag (c * (V / vector_mag V)) =
      Real.sqrt ((c * (V / vector_mag V)).x ^ 2 + (c * (V / vector_mag V)).y ^ 2)
    from rfl]
  rw [hcomp, Real.sqrt_mul (sq_nonneg _), Real.sqrt_sq_eq_abs, hsq]
  rw [abs_div, abs_of_pos hmpos]
  rw [hc, abs_neg, abs_of_nonneg hnn]
  field_simp
  ring

/-- Witness for C9 at V = (3, 4), rho = 2, C_d = 1, area = 1, mass = 1,
g = 9.8: the returned drag force has magnitude rho · 25 · C_d · area / 2. -/
theorem c9_drag_force_formula_witness :
    vector_mag ⟨3, 4⟩ ≠ 0 ∧
      ∀ f, Chap22.drag_force ⟨3, 4⟩ ⟨2, 1, 1, 1, 9.8⟩ = .ok f →
        vector_mag f = 2 * vector_mag (⟨3, 4⟩ : Vec) ^ 2 * 1 * 1 / 2 := by
  have h34 : vector_mag ⟨3, 4⟩ = 5 := vector_mag_eq_of_sq (by norm_num) (by norm_num)
  have hne : vector_mag (⟨3, 4⟩ : Vec) ≠ 0 := by
    rw [h34]
    norm_num
  exact ⟨hne, (c9_drag_force_formula ⟨3, 4⟩ ⟨2, 1, 1, 1, 9.8⟩ hne).2
    (by norm_num) (by norm_num) (by norm_num)⟩

namespace Spiderman

/-- The chap07 case-study system parameters used by spring_force: the spring
constant `k` and the natural length `length` of the webbing. -/
structure System where
  k : ℝ
  length : ℝ

/-- Embeds the chap07 case study's `spring_force(L⃗, system)`:
`extension = L⃗.mag - system.length;
if magnitude(extension) < 0: mag = 0 else: mag = system.k * extension;
direction = -L⃗.hat(); f_spring = direction * mag; return f_spring`. -/
noncomputable def spring_force (L : Vec) (system : System) :
    Except ModSimError Vec := do
  let extension := vector_mag L - system.length
  let mag := if magnitude extension < 0 then (0 : ℝ) else system.k * extension
  let direction := -(← vector_hat L)
  let f_spring := direction * mag
  return f_spring

end Spiderman

/-- Claim C8: the guard `magnitude(extension) < 0` in spring_force is never
true (a magnitude is an absolute value, hence non-negative), so the `mag = 0`
branch is unreachable: for every displacement with nonzero magnitude,
spring_force returns k·(magnitude(L) - length) times the opposite unit
direction, and when the cable is slack (and k is nonzero) this force is
nonzero rather than zero. -/
theorem c8_spring_force_guard_unreachable (L : Vec) (system : Spiderman.System)
    (hL : vector_mag L ≠ 0) :
    ¬ magnitude (vector_mag L - system.length) < 0 ∧
    Spiderman.spring_force L system =
      .ok ((-(L / vector_mag L)) * (system.k * (vector_mag L - system.length))) ∧
    (vector_mag L < system.length → system.k ≠ 0 →
      Spiderman.spring_force L system ≠ .ok ⟨0, 0⟩) := by
  have hguard : ¬ magnitude (vector_mag L - system.length) < 0 :=
    not_lt.mpr (abs_nonneg _)
  have hhat : vector_hat L = .ok (L / vector_mag L) := by
    unfold vector_hat
    rw [if_neg hL]
  have hmain : Spiderman.spring_force L system =
      .ok ((-(L / vector_mag L)) * (system.k * (vector_mag L - system.length))) := by
    unfold Spiderman.spring_force
    rw [hhat]
    show Except.ok _ = Except.ok _
    refine congrArg Except.ok ?_
    rw [if_neg hguard]
  refine ⟨hguard, hmain, ?_⟩
  intro hslack hk hcontra
  rw [hmain] at hcontra
  simp only [Except.ok.injEq] at hcontra
  have hfactor : system.k * (vector_mag L - system.length) ≠ 0 :=
    mul_ne_zero hk (ne_of_lt (by linarith))
  have hx : -(L.x / vector_mag L) * (system.k * (vector_mag L - system.length)) = 0 :=
    congrArg Vec.x hcontra
  have hy : -(L.y / vector_mag L) * (system.k * (vector_mag L - system.length)) = 0 :=
    congrArg Vec.y hcontra
  have hx0 : L.x = 0 := by
    rcases mul_eq_zero.mp hx with h1 | h2
    · rcases div_eq_zero_iff.mp (neg_eq_zero.mp h1) with h | h
      · exact h
      · exact absurd h hL
    · exact absurd h2 hfactor
  have hy0 : L.y = 0 := by
    rcases mul_eq_zero.mp hy with h1 | h2
    · rcases div_eq_zero_iff.mp (neg_eq_zero.mp h1) with h | h
      · exact h
      · exact absurd h hL
    · exact absurd h2 hfactor
  exact hL ((vector_mag_eq_zero_iff L).mpr ⟨hx0, hy0⟩)

/-- Witness for C8 at the slack configuration L = (0, -3), k = 1, length = 5:
the magnitude 3 is below the natural length 5 and the force is nonzero. -/
theorem c8_spring_force_guard_unreachable_witness :
    vector_mag ⟨0, -3⟩ ≠ 0 ∧ vector_mag (⟨0, -3⟩ : Vec) < (5 : ℝ) ∧
      Spiderman.spring_force ⟨0, -3⟩ ⟨1, 5⟩ ≠ .ok ⟨0, 0⟩ := by
  have h3 : vector_mag ⟨0, -3⟩ = 3 := vector_mag_eq_of_sq (by norm_num) (by norm_num)
  have hne : vector_mag (⟨0, -3⟩ : Vec) ≠ 0 := by
    rw [h3]
    norm_num
  have hsl : vector_mag (⟨0, -3⟩ : Vec) < (5 : ℝ) := by
    rw [h3]
    norm_num
  exact ⟨hne, hsl,
    (c8_spring_force_guard_unreachable ⟨0, -3⟩ ⟨1, 5⟩ hne).2.2 hsl one_ne_zero⟩

/-- Claim C10: the penny and baseball slope functions and the baseball event
function do not depend on their time argument — the models are autonomous, so
any two times give identical outputs on every state and system. -/
theorem c10_time_independence (t1 t2 : ℝ) :
    (∀ (state : Chap20.State) (system : Chap20.System),
        Chap20.slope_func t1 state system = Chap20.slope_func t2 state system) ∧
    (∀ (state : Chap22.State) (system : Chap22.System),
        Chap22.slope_func t1 state system = Chap22.slope_func t2 state system) ∧
    (∀ (state : Chap22.State) (system : Chap22.System),
        Chap22.event_func t1 state system = Chap22.event_func t2 state system) :=
  ⟨fun state system => rfl, fun state system => rfl, fun state system => rfl⟩
